import Mathlib

/-!
Shallow embedding of the mxj repository's core (src/anyxml.go and
src/x2j-wrapper/x2j.go): the generic value model, the type recaster,
the path-query engine (MapValue / hasAttributes / NewAttributeMap /
ValuesForKey / hasKey) and the arbitrary-value XML encoder (AnyXml /
AnyXmlIndent), together with theorems settling the frozen claims.
-/

namespace X2j

/-- Result of Go's `strconv.ParseFloat`, with the numeric value kept as an
exact rational (IEEE-754 rounding to the nearest binary64 is not modelled,
and the sign of negative zero is not tracked). -/
inductive GoFloat where
  | num (q : Rat)
  | inf (neg : Bool)
  | nan
deriving DecidableEq

/-- The generic value model: a Go `interface{}` tree as produced by
decoding XML/JSON into `map[string]interface{}`.  Go maps are modelled as
association lists (`List (String × Value)`); Go map iteration order is
nondeterministic, the list order stands in for one such order. -/
inductive Value where
  | null
  | str (s : String)
  | num (f : GoFloat)
  | bool (b : Bool)
  | list (l : List Value)
  | map (m : List (String × Value))

/-- Association-list model of a Go `map[string]interface{}`. -/
abbrev AList := List (String × Value)

/-! ### Model of the Go standard-library string helpers used by x2j.go -/

/-- Model of Go `strings.Split(s, sep)` for a single-character separator
(the only separators x2j.go uses are "." and ":"), on the character list. -/
def splitOnChar (sep : Char) : List Char → List (List Char)
  | [] => [[]]
  | c :: rest =>
    if c = sep then [] :: splitOnChar sep rest
    else
      match splitOnChar sep rest with
      | h :: t => (c :: h) :: t
      | [] => [[c]]

/-- Model of Go `strings.Split` (single-character separator) on `String`. -/
def goSplit (s : String) (sep : Char) : List String :=
  (splitOnChar sep s.data).map (fun l => ⟨l⟩)

/-- ASCII lower-casing, as Go's `strconv` applies byte-wise when matching
the special float spellings `inf` / `infinity` / `nan`. -/
def lowerAscii (c : Char) : Char :=
  if 'A' ≤ c ∧ c ≤ 'Z' then Char.ofNat (c.toNat + 32) else c

def isDigitC (c : Char) : Bool := '0' ≤ c ∧ c ≤ '9'

def digitVal (c : Char) : Nat := c.toNat - 48

/-- Model of Go `strconv.ParseBool`: the exact accepted spellings.
(Go's parser is not fully case-insensitive: `tRuE` is rejected.) -/
def parseBool (s : String) : Option Bool :=
  match s with
  | "1" | "t" | "T" | "TRUE" | "true" | "True" => some true
  | "0" | "f" | "F" | "FALSE" | "false" | "False" => some false
  | _ => none

/-- The special float spellings recognized by Go `strconv.ParseFloat`:
case-insensitive `inf` / `infinity` after an optional sign, and `nan`
only without a sign. -/
def parseSpecial (neg hasSign : Bool) (cs : List Char) : Option GoFloat :=
  let l := cs.map lowerAscii
  if l = ['i', 'n', 'f'] ∨ l = ['i', 'n', 'f', 'i', 'n', 'i', 't', 'y'] then
    some (.inf neg)
  else if !hasSign ∧ l = ['n', 'a', 'n'] then some .nan
  else none

/-- Mantissa scan of Go `strconv.ParseFloat`: digits with at most one dot,
at least one digit.  Returns the digits as a natural number together with
the count of fractional digits. -/
def readMant : List Char → Bool → Bool → Nat → Nat → Option (Nat × Nat)
  | [], _, sawdig, acc, k => if sawdig then some (acc, k) else none
  | c :: rest, sawdot, sawdig, acc, k =>
    if isDigitC c then
      readMant rest sawdot true (acc * 10 + digitVal c) (if sawdot then k + 1 else k)
    else if c = '.' then
      if sawdot then none else readMant rest true sawdig acc k
    else none

/-- Split the input at the first exponent marker `e`/`E`, if any. -/
def splitExp : List Char → List Char × Option (List Char)
  | [] => ([], none)
  | c :: rest =>
    if c = 'e' ∨ c = 'E' then ([], some rest)
    else
      match splitExp rest with
      | (m, e) => (c :: m, e)

/-- Exponent scan of Go `strconv.ParseFloat`: optional sign then at least
one digit. -/
def readExp (cs : List Char) : Option Int :=
  match cs with
  | [] => none
  | _ =>
    let p : Bool × List Char :=
      match cs with
      | '+' :: r => (false, r)
      | '-' :: r => (true, r)
      | r => (false, r)
    if p.2.isEmpty then none
    else if p.2.all isDigitC then
      let e : Nat := p.2.foldl (fun a c => a * 10 + digitVal c) 0
      some (if p.1 then -(e : Int) else (e : Int))
    else none

/-- `10^n` over the rationals for an integer exponent. -/
def tenPow (n : Int) : Rat :=
  if 0 ≤ n then ((10 ^ n.toNat : Nat) : Rat) else ((10 ^ (-n).toNat : Nat) : Rat)⁻¹

/-- Decimal part of Go `strconv.ParseFloat` (after sign/special handling):
mantissa with optional fraction and optional decimal exponent, the whole
input consumed. -/
def parseDecCore (cs : List Char) : Option Rat :=
  match splitExp cs with
  | (mcs, ecs) =>
    match readMant mcs false false 0 0 with
    | none => none
    | some (acc, k) =>
      match ecs with
      | none => some ((acc : Rat) * tenPow (0 - (k : Int)))
      | some el =>
        match readExp el with
        | none => none
        | some e => some ((acc : Rat) * tenPow (e - (k : Int)))

/-- Model of Go `strconv.ParseFloat(s, 64)`: optional sign, the special
`inf`/`infinity`/`nan` spellings, and decimal mantissa/exponent forms.
Hexadecimal floats and digit-separating underscores are not modelled; the
value is kept as an exact rational (no binary64 rounding). -/
def parseFloat (s : String) : Option GoFloat :=
  match s.data with
  | [] => none
  | c :: rest =>
    let t : Bool × Bool × List Char :=
      if c = '+' then (false, true, rest)
      else if c = '-' then (true, true, rest)
      else (false, false, c :: rest)
    match parseSpecial t.1 t.2.1 t.2.2 with
    | some f => some f
    | none =>
      match parseDecCore t.2.2 with
      | none => none
      | some q => some (.num (if t.1 then -q else q))

/-- x2j.go `recast`: try to cast a string value to float64 ahead of bool;
otherwise return the string unchanged. -/
def recast (s : String) (r : Bool) : Value :=
  if r then
    match parseFloat s with
    | some f => Value.num f
    | none =>
      match parseBool s with
      | some b => Value.bool b
      | none => Value.str s
  else Value.str s

/-! ### The path-query engine of x2j.go -/

/-- Go interface equality `val != vv` as hasAttributes uses it.  It is only
ever applied with `val` a scalar drawn from an attribute-match map (a string
from NewAttributeMap, or a float/bool/string produced by `recast`).  NaN
compares unequal to itself, as in Go.  Comparing two structured values of
the same shape would panic in Go; that case is unreachable for scalar
attribute values and is modelled as `false`. -/
def goEq (a b : Value) : Bool :=
  match a, b with
  | .str x, .str y => x == y
  | .bool x, .bool y => x == y
  | .num x, .num y =>
    match x, y with
    | .nan, _ => false
    | _, .nan => false
    | x, y => x == y
  | _, _ => false

/-- The attribute loop of x2j.go `hasAttributes` on a Mapping: the first
entry of `a` that is missing from `nv` or compares unequal produces the
error message, `none` meaning every pair matched.  (Go iterates the map `a`
in a nondeterministic order; the list order of `a` stands in for one such
order, so theorems only pin down whether a failure occurs, not which message
is produced when several pairs fail.)  The Go `%v` display of the expected
value in the mismatch message is modelled only for strings. -/
def goShowV (v : Value) : String :=
  match v with
  | .str s => s
  | _ => ""

def attrCheck (nv : AList) (a : AList) : Option String :=
  match a with
  | [] => none
  | (key, val) :: rest =>
    match nv.lookup key with
    | none => some ("no attribute with name: " ++ String.mk (key.data.drop 1))
    | some vv =>
      if goEq val vv then attrCheck nv rest
      else
        some ("no attribute key:value pair: " ++ String.mk (key.data.drop 1) ++ ":" ++
          goShowV val)

mutual

/-- x2j.go `hasAttributes`: attribute matching of a value against an
attribute-match map. -/
def hasAttributes (v : Value) (a : AList) : Except String Value :=
  match v with
  | .list l => hasAttrList l a
  | .map nv =>
    match attrCheck nv a with
    | some e => .error e
    | none =>
      match nv.lookup "#text" with
      | some vv => .ok vv
      | none => .ok (.map nv)
  | _ => .error "no match for attributes"

/-- The list loop of `hasAttributes`: the first member whose match succeeds
is returned. -/
def hasAttrList (l : List Value) (a : AList) : Except String Value :=
  match l with
  | [] => .error "no list member with matching attributes"
  | vv :: rest =>
    match hasAttributes vv a with
    | .ok r => .ok r
    | .error _ => hasAttrList rest a

end

/-- The key-walking loop of x2j.go `MapValue`: `m` is the last Mapping
seen, `v` the current value, `okey` the last key consumed and `isMap`
whether `v` is still a Mapping. -/
def walkKeys (m : AList) (v : Value) (okey : String) (isMap : Bool) :
    List String → Except String Value
  | [] => .ok v
  | key :: rest =>
    if !isMap then .error ("no keys beyond: " ++ okey)
    else
      match m.lookup key with
      | none => .error ("no key in map: " ++ key)
      | some v' =>
        match v' with
        | .map m' => walkKeys m' v' key true rest
        | _ => walkKeys m v' key false rest

/-- Number of entries of the (possibly nil) attribute map, Go `len(attr)`. -/
def attrLen : Option AList → Nat
  | none => 0
  | some l => l.length

/-- x2j.go `MapValue` after the optional attribute-recast pass: split the
path on `.`, take the identity shortcut when the first key is empty and the
attribute map is empty, otherwise walk the keys and finally match
attributes (`attr = none` models a nil Go map). -/
def mapValueCore (m : AList) (path : String) (attr : Option AList) :
    Except String Value :=
  let keys := goSplit path '.'
  if (keys.headD "") = "" ∧ attrLen attr = 0 then .ok (.map m)
  else
    match walkKeys m (.map m) "" true keys with
    | .error e => .error e
    | .ok v =>
      match attr with
      | none => .ok v
      | some a => hasAttributes v a

/-- One step of the attribute-recast loop of `MapValue`:
`attr[k] = recast(v.(string), true)`.  The Go type assertion `v.(string)`
panics on a non-string value; that case (unreachable for maps built by
`NewAttributeMap`) is modelled as the identity. -/
def attrRecastEntry (v : Value) : Value :=
  match v with
  | .str s => recast s true
  | v => v

/-- x2j.go `MapValue` with the optional recast flag `r` (a Go variadic
bool).  Since Go mutates the caller's `attr` map in place when
`len(r) == 1 && r[0] == true`, the model returns the final contents of the
caller's attribute map alongside the result. -/
def mapValueFull (m : AList) (path : String) (attr : Option AList)
    (r : List Bool) : Option AList × Except String Value :=
  let attr' : Option AList :=
    match r with
    | [true] => attr.map (List.map fun kv => (kv.1, attrRecastEntry kv.2))
    | _ => attr
  (attr', mapValueCore m path attr')

/-- x2j.go `MapValue`, result component. -/
def MapValue (m : AList) (path : String) (attr : Option AList)
    (r : List Bool) : Except String Value :=
  (mapValueFull m path attr r).2

/-- The insertion `m["-"+name] = value` on the association-list model of a
Go map: replace the entry if the key is present, else append. -/
def alistInsert (m : AList) (k : String) (v : Value) : AList :=
  match m with
  | [] => [(k, v)]
  | (k', v') :: rest => if k' = k then (k, v) :: rest else (k', v') :: alistInsert rest k v

/-- The loop of x2j.go `NewAttributeMap`: each `"name:value"` argument is
stored as key `"-name"`; an argument that does not split on `:` into
exactly two parts aborts with an error. -/
def buildAttrs (m : AList) : List String → Except String AList
  | [] => .ok m
  | v :: rest =>
    match goSplit v ':' with
    | [name, value] => buildAttrs (alistInsert m ("-" ++ name) (.str value)) rest
    | _ => .error ("attribute not \"name:value\" pair: " ++ v)

/-- x2j.go `NewAttributeMap`: `.ok none` models the Go `(nil, nil)` return
for an empty argument list. -/
def NewAttributeMap (kv : List String) : Except String (Option AList) :=
  match kv with
  | [] => .ok none
  | _ =>
    match buildAttrs [] kv with
    | .ok m => .ok (some m)
    | .error e => .error e

/-! ### The key-search of x2j.go: ValuesForKey / hasKey -/

mutual

/-- x2j.go `hasKey`: depth-first collection of every value stored under
`key`; at a Mapping the entry under `key` (when present) is appended first,
then every value of the Mapping is scanned, matched or not. -/
def hasKey (iv : Value) (key : String) : List Value :=
  match iv with
  | .map vv =>
    (match vv.lookup key with
     | some v => [v]
     | none => []) ++ hasKeyEntries vv key
  | .list l => hasKeyMembers l key
  | _ => []

/-- The `for _, v := range iv.(map[string]interface{})` recursion. -/
def hasKeyEntries (m : AList) (key : String) : List Value :=
  match m with
  | [] => []
  | (_, v) :: rest => hasKey v key ++ hasKeyEntries rest key

/-- The `for _, v := range iv.([]interface{})` recursion. -/
def hasKeyMembers (l : List Value) (key : String) : List Value :=
  match l with
  | [] => []
  | v :: rest => hasKey v key ++ hasKeyMembers rest key

end

/-- x2j.go `ValuesForKey` (the Go version returns nil instead of the empty
slice when nothing was found; both model the empty result). -/
def ValuesForKey (m : AList) (key : String) : List Value :=
  hasKey (.map m) key

/-- `KeyVal t key v` holds when some Mapping anywhere in the tree `t`
stores `v` under `key` (the value the Go map lookup would yield). -/
inductive KeyVal : Value → String → Value → Prop where
  | here (m : AList) (key : String) (v : Value) :
      m.lookup key = some v → KeyVal (.map m) key v
  | mapChild (m : AList) (key k' : String) (v' v : Value) :
      (k', v') ∈ m → KeyVal v' key v → KeyVal (.map m) key v
  | listChild (l : List Value) (key : String) (v' v : Value) :
      v' ∈ l → KeyVal v' key v → KeyVal (.list l) key v

/-- A scalar value (string, float or bool) — the only shapes an
attribute-match map ever stores (NewAttributeMap stores strings; the
recast pass replaces them by floats/bools/strings). -/
def isScalar : Value → Bool
  | .str _ => true
  | .num _ => true
  | .bool _ => true
  | _ => false

def isMapV : Value → Bool
  | .map _ => true
  | _ => false

/-! ### C1 / C6: the type recaster -/

/-- C1: the type recaster tries the parses in strict order: a string that
parses as a 64-bit float is returned as that float; otherwise a string that
parses as a boolean is returned as that boolean; otherwise the string is
returned unchanged.  In particular `"1"` and `"0"` are returned as the
floats 1.0 and 0.0, never as booleans. -/
theorem recast_strict_order :
    (∀ s f, parseFloat s = some f → recast s true = Value.num f) ∧
    (∀ s b, parseFloat s = none → parseBool s = some b → recast s true = Value.bool b) ∧
    (∀ s, parseFloat s = none → parseBool s = none → recast s true = Value.str s) ∧
    recast "1" true = Value.num (GoFloat.num 1) ∧
    recast "0" true = Value.num (GoFloat.num 0) := by
  refine ⟨?_, ?_, ?_, ?_, ?_⟩
  · intro s f h; simp [recast, h]
  · intro s b h1 h2; simp [recast, h1, h2]
  · intro s h1 h2; simp [recast, h1, h2]
  · simp +decide [recast, parseFloat, parseSpecial, parseDecCore, splitExp, readMant,
      readExp, tenPow, digitVal, isDigitC, lowerAscii]
  · simp +decide [recast, parseFloat, parseSpecial, parseDecCore, splitExp, readMant,
      readExp, tenPow, digitVal, isDigitC, lowerAscii]

/-- Witness for C1 at concrete inputs: `"2.5"` hits the float branch,
`"true"` the boolean branch, `"abc"` falls through unchanged. -/
theorem recast_strict_order_witness :
    recast "2.5" true = Value.num (GoFloat.num (5 / 2)) ∧
    recast "true" true = Value.bool true ∧
    recast "abc" true = Value.str "abc" := by
  refine ⟨recast_strict_order.1 "2.5" (GoFloat.num (5 / 2)) ?_,
          recast_strict_order.2.1 "true" true ?_ ?_,
          recast_strict_order.2.2.1 "abc" ?_ ?_⟩
  · simp +decide [parseFloat, parseSpecial, parseDecCore, splitExp, readMant,
      readExp, tenPow, digitVal, isDigitC, lowerAscii]
    norm_num
  · decide
  · decide
  · decide
  · decide

/-- C6 counterexample: the boolean recognition is not case-insensitive:
the case-variant `"tRuE"` of `"true"` is returned as the unchanged string,
not as the boolean `true`. -/
theorem recast_mixed_case_cex :
    recast "tRuE" true = Value.str "tRuE" ∧ Value.str "tRuE" ≠ Value.bool true := by
  constructor
  · simp +decide [recast, parseFloat, parseSpecial, parseDecCore, splitExp, readMant,
      readExp, tenPow, digitVal, isDigitC, lowerAscii, parseBool]
  · simp

/-- All case-variants of a token: at each lower-case-letter position both
the lower- and the upper-case spelling, every other character (the claim's
tokens contain only lower-case letters and digits) kept as is. -/
def caseVariants : List Char → List (List Char)
  | [] => [[]]
  | c :: rest =>
    let tails := caseVariants rest
    let heads := if 'a' ≤ c ∧ c ≤ 'z' then [c, Char.ofNat (c.toNat - 32)] else [c]
    heads.flatMap fun h => tails.map fun t => h :: t

/-- Every case-variant of the claim's six boolean-style tokens
`"1"`, `"true"`, `"t"`, `"0"`, `"false"`, `"f"` (54 strings in all). -/
def tokenCaseVariants : List String :=
  ["1", "true", "t", "0", "false", "f"].flatMap fun tok =>
    (caseVariants tok.data).map String.mk

/-- C6 amended: for every case-variant of a true-style token (`1`, `true`,
`t`) or of a false-style token (`0`, `false`, `f`), the recaster returns a
boolean exactly for the spellings Go's `strconv.ParseBool` accepts —
`t`/`T`/`TRUE`/`true`/`True` give `true` and `f`/`F`/`FALSE`/`false`/`False`
give `false` — except that `1` and `0` are shadowed by the float parse and
returned as the floats 1.0 and 0.0; every other case-variant (such as
`tRuE`) is returned as the unchanged string. -/
theorem recast_bool_tokens :
    ∀ s ∈ tokenCaseVariants,
      recast s true =
        if s ∈ ["t", "T", "TRUE", "true", "True"] then Value.bool true
        else if s ∈ ["f", "F", "FALSE", "false", "False"] then Value.bool false
        else if s = "1" then Value.num (GoFloat.num 1)
        else if s = "0" then Value.num (GoFloat.num 0)
        else Value.str s := by
  have hlist : tokenCaseVariants =
      ["1", "true", "truE", "trUe", "trUE", "tRue", "tRuE", "tRUe", "tRUE", "True",
       "TruE", "TrUe", "TrUE", "TRue", "TRuE", "TRUe", "TRUE", "t", "T", "0",
       "false", "falsE", "falSe", "falSE", "faLse", "faLsE", "faLSe", "faLSE",
       "fAlse", "fAlsE", "fAlSe", "fAlSE", "fALse", "fALsE", "fALSe", "fALSE",
       "False", "FalsE", "FalSe", "FalSE", "FaLse", "FaLsE", "FaLSe", "FaLSE",
       "FAlse", "FAlsE", "FAlSe", "FAlSE", "FALse", "FALsE", "FALSe", "FALSE",
       "f", "F"] := by decide
  intro s hs
  rw [hlist] at hs
  fin_cases hs <;>
    simp +decide [recast, parseFloat, parseSpecial, parseDecCore, splitExp, readMant,
      readExp, tenPow, digitVal, isDigitC, lowerAscii, parseBool]

/-- Witness for C6 (amended) at concrete case-variants: an accepted `true`
spelling, an accepted `false` spelling, a mixed-case variant returned as
the unchanged string, and the float-shadowed `1`. -/
theorem recast_bool_tokens_witness :
    recast "True" true = Value.bool true ∧
    recast "FALSE" true = Value.bool false ∧
    recast "tRuE" true = Value.str "tRuE" ∧
    recast "1" true = Value.num (GoFloat.num 1) := by
  refine ⟨recast_bool_tokens "True" (by decide), recast_bool_tokens "FALSE" (by decide),
          recast_bool_tokens "tRuE" (by decide), recast_bool_tokens "1" (by decide)⟩

end X2j

namespace X2j

/-! ### C2: attribute matching -/

/-- The attribute loop succeeds when every pair of `a` is present in `nv`
with a Go-equal value. -/
theorem attrCheck_eq_none (nv a : AList)
    (h : ∀ kv ∈ a, ∃ vv, nv.lookup kv.1 = some vv ∧ goEq kv.2 vv = true) :
    attrCheck nv a = none := by
  induction a with
  | nil => rfl
  | cons kv rest ih =>
    obtain ⟨key, val⟩ := kv
    obtain ⟨vv, hl, he⟩ := h (key, val) (by simp)
    simp only [attrCheck, hl, he, if_true]
    exact ih fun p hp => h p (List.mem_cons_of_mem _ hp)

/-- The attribute loop fails when some pair of `a` is missing from `nv` or
compares unequal. -/
theorem attrCheck_ne_none (nv a : AList)
    (h : ∃ kv ∈ a, nv.lookup kv.1 = none ∨
        ∃ vv, nv.lookup kv.1 = some vv ∧ goEq kv.2 vv = false) :
    ∃ e, attrCheck nv a = some e := by
  induction a with
  | nil => simp at h
  | cons p rest ih =>
    obtain ⟨key, val⟩ := p
    obtain ⟨kv, hkv, hfail⟩ := h
    rcases List.mem_cons.mp hkv with heq | hmem
    · subst heq
      rcases hfail with hnone | ⟨vv, hsome, hne⟩
      · have hn : List.lookup key nv = none := hnone
        exact ⟨"no attribute with name: " ++ String.mk (key.data.drop 1),
          by simp only [attrCheck, hn]⟩
      · have hs : List.lookup key nv = some vv := hsome
        have hg : goEq val vv = false := hne
        exact ⟨"no attribute key:value pair: " ++ String.mk (key.data.drop 1) ++ ":" ++
          goShowV val, by simp [attrCheck, hs, hg]⟩
    · cases hl : nv.lookup key with
      | none =>
        exact ⟨"no attribute with name: " ++ String.mk (key.data.drop 1),
          by simp only [attrCheck, hl]⟩
      | some vv =>
        cases he : goEq val vv with
        | false =>
          exact ⟨"no attribute key:value pair: " ++ String.mk (key.data.drop 1) ++ ":" ++
            goShowV val, by simp [attrCheck, hl, he]⟩
        | true =>
          obtain ⟨e, hrest⟩ := ih ⟨kv, hmem, hfail⟩
          exact ⟨e, by simp [attrCheck, hl, he, hrest]⟩

/-- C2: attribute matching.  On a List, matching is attempted against each
member in document order and the first member that matches is returned,
else the no-list-member error.  On a Mapping, every pair of the (scalar-
valued) filter must be present with an equal value; on full match the value
under `"#text"` is returned if present, else the Mapping itself; any
missing or unequal pair fails.  Every other shape fails with the
not-matchable error. -/
theorem hasAttributes_spec :
    (∀ l a, hasAttributes (.list l) a =
      match l.findSome? (fun vv => (hasAttributes vv a).toOption) with
      | some r => .ok r
      | none => .error "no list member with matching attributes") ∧
    (∀ nv a, (∀ kv ∈ a, isScalar kv.2 = true) →
      (∀ kv ∈ a, ∃ vv, nv.lookup kv.1 = some vv ∧ goEq kv.2 vv = true) →
      hasAttributes (.map nv) a =
        .ok (match nv.lookup "#text" with | some t => t | none => .map nv)) ∧
    (∀ nv a, (∀ kv ∈ a, isScalar kv.2 = true) → a ≠ [] →
      (∃ kv ∈ a, nv.lookup kv.1 = none ∨
        ∃ vv, nv.lookup kv.1 = some vv ∧ goEq kv.2 vv = false) →
      ∃ e, hasAttributes (.map nv) a = .error e) ∧
    (∀ s a, hasAttributes (.str s) a = .error "no match for attributes") ∧
    (∀ f a, hasAttributes (.num f) a = .error "no match for attributes") ∧
    (∀ b a, hasAttributes (.bool b) a = .error "no match for attributes") ∧
    (∀ a, hasAttributes .null a = .error "no match for attributes") := by
  refine ⟨?_, ?_, ?_, fun _ _ => rfl, fun _ _ => rfl, fun _ _ => rfl, fun _ => rfl⟩
  · intro l a
    induction l with
    | nil => rfl
    | cons vv rest ih =>
      show hasAttrList (vv :: rest) a = _
      rw [List.findSome?_cons]
      cases hv : hasAttributes vv a with
      | ok r => simp [hasAttrList, hv, Except.toOption]
      | error e =>
        simp only [hasAttrList, hv, Except.toOption]
        exact ih
  · intro nv a _ h
    simp only [hasAttributes, attrCheck_eq_none nv a h]
    cases List.lookup "#text" nv <;> rfl
  · intro nv a _ _ h
    obtain ⟨e, he⟩ := attrCheck_ne_none nv a h
    exact ⟨e, by simp [hasAttributes, he]⟩

/-- Witness for C2 at concrete inputs: a full match returns the `"#text"`
value, a mismatched filter fails, a scalar is not matchable. -/
theorem hasAttributes_spec_witness :
    hasAttributes (.map [("-id", Value.str "7"), ("#text", Value.str "Title")])
        [("-id", Value.str "7")] = .ok (Value.str "Title") ∧
    (∃ e, hasAttributes (.map [("-id", Value.str "7")])
        [("-id", Value.str "8")] = .error e) ∧
    hasAttributes (.str "x") [("-id", Value.str "7")] =
      .error "no match for attributes" := by
  refine ⟨hasAttributes_spec.2.1 _ _ ?_ ?_, hasAttributes_spec.2.2.1 _ _ ?_ ?_ ?_,
    hasAttributes_spec.2.2.2.1 "x" _⟩
  · intro kv hkv; simp at hkv; subst hkv; rfl
  · intro kv hkv; simp at hkv; subst hkv
    exact ⟨Value.str "7", rfl, rfl⟩
  · intro kv hkv; simp at hkv; subst hkv; rfl
  · simp
  · refine ⟨("-id", Value.str "8"), by simp, Or.inr ⟨Value.str "7", rfl, rfl⟩⟩

end X2j

namespace X2j

/-! ### C3 / C7: MapValue path walking -/

/-- C3 counterexample: for the non-empty path `".x"` (whose first key is
the empty string, which the root Mapping lacks) and no attribute filter,
MapValue does not fail with a no-such-key error: the identity shortcut
fires for any path whose first segment is empty, and the root is returned
unchanged. -/
theorem mapValue_leading_dot_cex :
    (".x" ≠ "") ∧
    goSplit ".x" '.' = ["", "x"] ∧
    List.lookup "" [("a", Value.str "1")] = none ∧
    MapValue [("a", Value.str "1")] ".x" none [] =
      .ok (.map [("a", Value.str "1")]) := by
  exact ⟨by decide, by decide, rfl, rfl⟩

/-- C3 amended: when the first path segment is empty and the attribute map
is empty, MapValue returns the root unchanged without walking; in every
other case the walk consumes one key at a time, failing with
`no key in map: <key>` when the current Mapping lacks the key, failing with
`no keys beyond: <last key consumed>` when the current value has stopped
being a Mapping (a scalar or a list) while keys remain — so the walk never
descends through a scalar or a list. -/
theorem mapValue_walk_spec :
    (∀ m path attr, (goSplit path '.').headD "" = "" → attrLen attr = 0 →
      mapValueCore m path attr = .ok (.map m)) ∧
    (∀ m path attr, ¬ ((goSplit path '.').headD "" = "" ∧ attrLen attr = 0) →
      mapValueCore m path attr =
        match walkKeys m (.map m) "" true (goSplit path '.') with
        | .error e => .error e
        | .ok v =>
          match attr with
          | none => .ok v
          | some a => hasAttributes v a) ∧
    (∀ m v okey key rest, List.lookup key m = none →
      walkKeys m v okey true (key :: rest) = .error ("no key in map: " ++ key)) ∧
    (∀ m v okey key key' rest v', List.lookup key m = some v' → isMapV v' = false →
      walkKeys m v okey true (key :: key' :: rest) =
        .error ("no keys beyond: " ++ key)) ∧
    (∀ m v okey keys, keys ≠ [] →
      walkKeys m v okey false keys = .error ("no keys beyond: " ++ okey)) := by
  refine ⟨?_, ?_, ?_, ?_, ?_⟩
  · intro m path attr h1 h2
    have h1' : (goSplit path '.').head?.getD "" = "" := by simpa using h1
    simp [mapValueCore, h1', h2]
  · intro m path attr h
    simp only [mapValueCore]
    rw [if_neg h]
  · intro m v okey key rest h
    simp [walkKeys, h]
  · intro m v okey key key' rest v' h hv
    cases v' <;> simp_all [walkKeys, isMapV]
  · intro m v okey keys h
    cases keys with
    | nil => exact absurd rfl h
    | cons k ks => simp [walkKeys]

/-- Witness for C3 (amended) at concrete inputs: a missing key fails with
the no-such-key error; a scalar met mid-path fails with the path-exhausted
error naming the last key consumed, both through `MapValue` itself. -/
theorem mapValue_walk_spec_witness :
    walkKeys [("a", Value.str "1")] (.map [("a", Value.str "1")]) "" true ["b"] =
      .error "no key in map: b" ∧
    walkKeys [("a", Value.str "1")] (.map [("a", Value.str "1")]) "" true ["a", "b"] =
      .error "no keys beyond: a" ∧
    mapValueCore [("a", Value.str "1")] "a.b" none = .error "no keys beyond: a" ∧
    mapValueCore [("a", Value.str "1")] "b" none = .error "no key in map: b" := by
  refine ⟨mapValue_walk_spec.2.2.1 _ _ _ "b" [] rfl,
          mapValue_walk_spec.2.2.2.1 _ _ _ "a" "b" [] (Value.str "1") rfl rfl,
          (mapValue_walk_spec.2.1 [("a", Value.str "1")] "a.b" none (by decide)),
          (mapValue_walk_spec.2.1 [("a", Value.str "1")] "b" none (by decide))⟩

/-- C7 counterexample: with an empty path and a non-empty attribute filter,
MapValue does not apply attribute matching to the root (which here would
succeed and return the `"#text"` value): it looks up the empty-string key
in the root and fails with a no-such-key error. -/
theorem mapValue_empty_path_attr_cex :
    MapValue [("-x", Value.str "y"), ("#text", Value.str "T")] ""
        (some [("-x", Value.str "y")]) [] = .error "no key in map: " ∧
    hasAttributes (.map [("-x", Value.str "y"), ("#text", Value.str "T")])
        [("-x", Value.str "y")] = .ok (Value.str "T") := by
  exact ⟨rfl, rfl⟩

/-- C7 amended: with an empty path and an empty (or nil) attribute map,
MapValue returns the root unchanged; with an empty path and a non-empty
attribute filter it does not match against the root but walks the single
empty-string key: it fails with `no key in map: ` when the root lacks the
key `""`, and applies attribute matching to the value stored under `""`
when present. -/
theorem mapValue_empty_path_spec :
    (∀ m attr, attrLen attr = 0 → MapValue m "" attr [] = .ok (.map m)) ∧
    (∀ m a, a ≠ [] → List.lookup "" m = none →
      MapValue m "" (some a) [] = .error ("no key in map: ")) ∧
    (∀ m a v, a ≠ [] → List.lookup "" m = some v →
      MapValue m "" (some a) [] = hasAttributes v a) := by
  refine ⟨?_, ?_, ?_⟩
  · intro m attr h
    simp [MapValue, mapValueFull, mapValueCore, goSplit, splitOnChar, h]
  · intro m a ha h
    have hlen : attrLen (some a) ≠ 0 := by
      simpa [attrLen, List.length_eq_zero] using ha
    simp [MapValue, mapValueFull, mapValueCore, goSplit, splitOnChar, hlen,
      walkKeys, h]
  · intro m a v ha h
    have hlen : attrLen (some a) ≠ 0 := by
      simpa [attrLen, List.length_eq_zero] using ha
    cases v <;>
      simp [MapValue, mapValueFull, mapValueCore, goSplit, splitOnChar, hlen,
        walkKeys, h]

/-- Witness for C7 (amended) at concrete inputs. -/
theorem mapValue_empty_path_spec_witness :
    MapValue [("a", Value.str "1")] "" none [] = .ok (.map [("a", Value.str "1")]) ∧
    MapValue [("a", Value.str "1")] "" (some [("-x", Value.str "y")]) [] =
      .error "no key in map: " ∧
    MapValue [("", Value.str "q")] "" (some [("-x", Value.str "y")]) [] =
      hasAttributes (Value.str "q") [("-x", Value.str "y")] := by
  refine ⟨mapValue_empty_path_spec.1 _ none rfl,
          mapValue_empty_path_spec.2.1 _ _ (by simp) rfl,
          mapValue_empty_path_spec.2.2 _ _ (Value.str "q") (by simp) rfl⟩

/-! ### C10: the recast flag mutates the caller's attribute map -/

/-- C10 counterexample: calling MapValue with the recast flag set rewrites
the caller's attribute map in place: the entry `"-id" ↦ "7"` (a string) is
replaced by the float 7.0, so the map does not hold the entries it held
before the call. -/
theorem mapValue_attr_mutation_cex :
    (mapValueFull [("a", Value.str "b")] "a" (some [("-id", Value.str "7")])
        [true]).1 = some [("-id", Value.num (GoFloat.num 7))] ∧
    Value.num (GoFloat.num 7) ≠ Value.str "7" := by
  constructor
  · simp +decide [mapValueFull, attrRecastEntry, recast, parseFloat, parseSpecial,
      parseDecCore, splitExp, readMant, readExp, tenPow, digitVal, isDigitC, lowerAscii]
  · simp

/-- C10 amended: the root Mapping is only read (the embedding of MapValue
takes it immutably, matching the source, which never assigns into `m`), and
the caller's attribute map is returned unchanged whenever the recast flag
is absent or not exactly `[true]`; but when the flag is exactly `[true]`
every entry of the attribute map is replaced in place by the recast of its
(string) value. -/
theorem mapValue_attr_frame :
    (∀ m path attr, (mapValueFull m path attr []).1 = attr) ∧
    (∀ m path attr, (mapValueFull m path attr [false]).1 = attr) ∧
    (∀ m path attr r1 r2 rs, (mapValueFull m path attr (r1 :: r2 :: rs)).1 = attr) ∧
    (∀ m path attr, (mapValueFull m path attr [true]).1 =
      attr.map (List.map fun kv => (kv.1, attrRecastEntry kv.2))) ∧
    (∀ m path, (mapValueFull m path none [true]).1 = none) := by
  refine ⟨fun _ _ _ => rfl, fun _ _ _ => rfl, ?_, fun _ _ _ => rfl, fun _ _ => rfl⟩
  intro m path attr r1 r2 rs
  cases r1 <;> rfl

end X2j

namespace X2j

/-! ### C8: NewAttributeMap -/

/-- Lookup after a Go map assignment: the inserted key shadows, every other
key is unaffected. -/
theorem lookup_alistInsert (m : AList) (k k' : String) (v : Value) :
    (alistInsert m k v).lookup k' = if k' = k then some v else m.lookup k' := by
  induction m with
  | nil =>
    by_cases h : k' = k
    · subst h; simp [alistInsert]
    · simp [alistInsert, List.lookup_cons, beq_eq_false_iff_ne.mpr h, h]
  | cons p rest ih =>
    obtain ⟨k2, v2⟩ := p
    by_cases h : k2 = k
    · subst h
      by_cases h2 : k' = k2
      · subst h2; simp [alistInsert]
      · simp [alistInsert, List.lookup_cons, beq_eq_false_iff_ne.mpr h2, h2]
    · by_cases h2 : k' = k2
      · subst h2
        simp [alistInsert, h, List.lookup_cons]
      · simp [alistInsert, h, List.lookup_cons, beq_eq_false_iff_ne.mpr h2, h2, ih]

/-- The per-argument selector of NewAttributeMap: what a single
`"name:value"` argument contributes to the key `k`. -/
def attrSel (k arg : String) : Option Value :=
  match goSplit arg ':' with
  | [n, v] => if "-" ++ n = k then some (Value.str v) else none
  | _ => none

/-- A malformed argument anywhere in the list makes the build loop fail. -/
theorem buildAttrs_error (kv : List String) :
    ∀ acc, (∃ arg ∈ kv, (goSplit arg ':').length ≠ 2) →
      ∃ e, buildAttrs acc kv = .error e := by
  induction kv with
  | nil => intro acc h; simp at h
  | cons v rest ih =>
    intro acc h
    rcases hgs : goSplit v ':' with _ | ⟨n, _ | ⟨val, _ | _⟩⟩
    · exact ⟨_, by rw [buildAttrs, hgs]⟩
    · exact ⟨_, by rw [buildAttrs, hgs]⟩
    · obtain ⟨arg, hmem, hbad⟩ := h
      rcases List.mem_cons.mp hmem with rfl | hmem'
      · rw [hgs] at hbad; simp at hbad
      · obtain ⟨e, he⟩ := ih _ ⟨arg, hmem', hbad⟩
        exact ⟨e, by rw [buildAttrs, hgs]; exact he⟩
    · exact ⟨_, by rw [buildAttrs, hgs]⟩

/-- When every argument is well-formed, the build loop succeeds and the
resulting map answers each lookup with the contribution of the last
matching argument, falling back to the accumulator. -/
theorem buildAttrs_ok (kv : List String) :
    ∀ acc, (∀ arg ∈ kv, (goSplit arg ':').length = 2) →
      ∃ m, buildAttrs acc kv = .ok m ∧
        ∀ k, m.lookup k =
          match kv.reverse.findSome? (attrSel k) with
          | some v => some v
          | none => acc.lookup k := by
  induction kv with
  | nil => intro acc _; exact ⟨acc, rfl, by simp⟩
  | cons v rest ih =>
    intro acc h
    rcases hgs : goSplit v ':' with _ | ⟨n, _ | ⟨val, _ | _⟩⟩
    · have := h v (by simp); rw [hgs] at this; simp at this
    · have := h v (by simp); rw [hgs] at this; simp at this
    · obtain ⟨m, hm, hlook⟩ :=
        ih (alistInsert acc ("-" ++ n) (.str val)) fun a ha => h a (List.mem_cons_of_mem _ ha)
      refine ⟨m, by rw [buildAttrs, hgs]; exact hm, ?_⟩
      intro k
      rw [hlook k, List.reverse_cons, List.findSome?_append]
      cases hrest : rest.reverse.findSome? (attrSel k) with
      | some r => simp [Option.or]
      | none =>
        simp only [Option.or, List.findSome?_cons, List.findSome?_nil]
        rw [lookup_alistInsert]
        by_cases hk : k = "-" ++ n
        · simp [attrSel, hgs, hk]
        · simp [attrSel, hgs, hk, Ne.symm hk]
    · have := h v (by simp); rw [hgs] at this; simp at this

/-- C8: NewAttributeMap stores each `"name:value"` argument's value string
under the hyphen-prefixed key `"-name"` (the last argument wins for a
repeated name); an empty argument list yields no map and no error; any
argument that does not split on `:` into exactly a name part and a value
part makes the call return an error and no map. -/
theorem newAttributeMap_spec :
    (NewAttributeMap [] = .ok none) ∧
    (∀ kv, (∃ arg ∈ kv, (goSplit arg ':').length ≠ 2) →
      ∃ e, NewAttributeMap kv = .error e) ∧
    (∀ kv, kv ≠ [] → (∀ arg ∈ kv, (goSplit arg ':').length = 2) →
      ∃ m, NewAttributeMap kv = .ok (some m) ∧
        ∀ k, m.lookup k = kv.reverse.findSome? (attrSel k)) := by
  refine ⟨rfl, ?_, ?_⟩
  · intro kv h
    obtain ⟨arg, hmem, hbad⟩ := h
    cases kv with
    | nil => simp at hmem
    | cons v rest =>
      obtain ⟨e, he⟩ := buildAttrs_error (v :: rest) [] ⟨arg, hmem, hbad⟩
      exact ⟨e, by simp [NewAttributeMap, he]⟩
  · intro kv hne h
    obtain ⟨m, hm, hlook⟩ := buildAttrs_ok kv [] h
    cases kv with
    | nil => exact absurd rfl hne
    | cons v rest =>
      refine ⟨m, by simp [NewAttributeMap, hm], ?_⟩
      intro k
      rw [hlook k]
      cases (v :: rest).reverse.findSome? (attrSel k) <;> simp

/-- Witness for C8 at concrete inputs: a colon-less argument errors, a
well-formed pair is stored under the hyphen-prefixed name. -/
theorem newAttributeMap_spec_witness :
    (∃ e, NewAttributeMap ["noColonHere"] = .error e) ∧
    (∃ m, NewAttributeMap ["id:7"] = .ok (some m) ∧
      ∀ k, m.lookup k = ["id:7"].reverse.findSome? (attrSel k)) := by
  refine ⟨newAttributeMap_spec.2.1 ["noColonHere"] ⟨"noColonHere", by simp, by decide⟩,
          newAttributeMap_spec.2.2 ["id:7"] (by simp) ?_⟩
  intro arg h
  simp at h
  subst h
  decide

end X2j

namespace X2j

/-! ### C4: ValuesForKey / hasKey completeness -/

/-- Membership in the entry scan of a Mapping: some entry's value
contributes it. -/
theorem mem_hasKeyEntries (l : AList) (key : String) (v : Value) :
    v ∈ hasKeyEntries l key ↔ ∃ p ∈ l, v ∈ hasKey p.2 key := by
  induction l with
  | nil => simp [hasKeyEntries]
  | cons p rest ih =>
    obtain ⟨a, b⟩ := p
    simp [hasKeyEntries, List.mem_append, ih, List.mem_cons]

/-- Membership in the member scan of a List: some member contributes it. -/
theorem mem_hasKeyMembers (l : List Value) (key : String) (v : Value) :
    v ∈ hasKeyMembers l key ↔ ∃ w ∈ l, v ∈ hasKey w key := by
  induction l with
  | nil => simp [hasKeyMembers]
  | cons w rest ih =>
    simp [hasKeyMembers, List.mem_append, ih, List.mem_cons]

/-- Strong-induction core for C4: `hasKey` collects exactly the values
stored under `key` somewhere in the tree. -/
theorem hasKey_mem_iff (key : String) :
    ∀ n, ∀ iv : Value, sizeOf iv ≤ n → ∀ v, (v ∈ hasKey iv key ↔ KeyVal iv key v) := by
  intro n
  induction n with
  | zero =>
    intro iv h
    exfalso
    cases iv <;> simp at h
  | succ n ih =>
    intro iv hsz v
    cases iv with
    | null =>
      simp only [hasKey, List.not_mem_nil, false_iff]
      intro h; cases h
    | str s =>
      simp only [hasKey, List.not_mem_nil, false_iff]
      intro h; cases h
    | num f =>
      simp only [hasKey, List.not_mem_nil, false_iff]
      intro h; cases h
    | bool b =>
      simp only [hasKey, List.not_mem_nil, false_iff]
      intro h; cases h
    | map vv =>
      have hvv : sizeOf vv ≤ n := by
        have hs : sizeOf (Value.map vv) = 1 + sizeOf vv := by simp
        omega
      constructor
      · intro hv
        simp only [hasKey] at hv
        rcases List.mem_append.mp hv with h1 | h2
        · cases hl : List.lookup key vv with
          | none => rw [hl] at h1; simp at h1
          | some w =>
            rw [hl] at h1; simp at h1; subst h1
            exact KeyVal.here vv key v hl
        · obtain ⟨p, hp, hmem⟩ := (mem_hasKeyEntries vv key v).mp h2
          obtain ⟨a, b⟩ := p
          have hsb : sizeOf b ≤ n := by
            have h1 := List.sizeOf_lt_of_mem hp
            have h2 : sizeOf (a, b) = 1 + sizeOf a + sizeOf b := rfl
            omega
          exact KeyVal.mapChild vv key a b v hp ((ih b hsb v).mp hmem)
      · intro hkv
        simp only [hasKey]
        apply List.mem_append.mpr
        cases hkv with
        | here _ _ _ hl => left; rw [hl]; simp
        | mapChild _ _ k' v' _ hp hchild =>
          right
          refine (mem_hasKeyEntries vv key v).mpr ⟨(k', v'), hp, ?_⟩
          have hsb : sizeOf v' ≤ n := by
            have h1 := List.sizeOf_lt_of_mem hp
            have h2 : sizeOf (k', v') = 1 + sizeOf k' + sizeOf v' := rfl
            omega
          exact ((ih v' hsb v).mpr hchild)
    | list l =>
      have hl : sizeOf l ≤ n := by
        have hs : sizeOf (Value.list l) = 1 + sizeOf l := by simp
        omega
      constructor
      · intro hv
        simp only [hasKey] at hv
        obtain ⟨w, hw, hmem⟩ := (mem_hasKeyMembers l key v).mp hv
        have hsw : sizeOf w ≤ n := by
          have h1 := List.sizeOf_lt_of_mem hw
          omega
        exact KeyVal.listChild l key w v hw ((ih w hsw v).mp hmem)
      · intro hkv
        cases hkv with
        | listChild _ _ w _ hw hchild =>
          simp only [hasKey]
          refine (mem_hasKeyMembers l key v).mpr ⟨w, hw, ?_⟩
          have hsw : sizeOf w ≤ n := by
            have h1 := List.sizeOf_lt_of_mem hw
            omega
          exact (ih w hsw v).mpr hchild

/-- C4: `ValuesForKey`/`hasKey` performs a depth-first traversal that, at
each Mapping, first appends the value stored under the searched key (when
present) and then recurses into every value of the Mapping and every member
of every List, regardless of whether the key matched: a value is collected
exactly when some Mapping in the tree stores it under the key, and when the
key never occurs the result is empty — the function is total and returns no
error. -/
theorem valuesForKey_complete :
    (∀ t key v, v ∈ hasKey t key ↔ KeyVal t key v) ∧
    (∀ t key, hasKey t key = [] ↔ ∀ v, ¬ KeyVal t key v) ∧
    (∀ m key v, List.lookup key m = some v → (ValuesForKey m key).head? = some v) := by
  have main : ∀ t key v, v ∈ hasKey t key ↔ KeyVal t key v :=
    fun t key v => hasKey_mem_iff key (sizeOf t) t le_rfl v
  refine ⟨main, ?_, ?_⟩
  · intro t key
    simp only [List.eq_nil_iff_forall_not_mem, main]
  · intro m key v hl
    simp [ValuesForKey, hasKey, hl]

/-- Witness for C4 at a concrete input: the value stored under the key at
the root comes first, and a nested occurrence is collected as well. -/
theorem valuesForKey_complete_witness :
    (ValuesForKey [("a", Value.str "y")] "a").head? = some (Value.str "y") ∧
    Value.str "x" ∈ hasKey (.map [("b", Value.map [("a", Value.str "x")])]) "a" := by
  constructor
  · exact valuesForKey_complete.2.2 [("a", Value.str "y")] "a" (Value.str "y") rfl
  · exact (valuesForKey_complete.1 _ "a" (Value.str "x")).mpr
      (KeyVal.mapChild _ "a" "b" (Value.map [("a", Value.str "x")]) _ (by simp)
        (KeyVal.here _ "a" _ rfl))

end X2j

namespace X2j

/-! ### The arbitrary-value XML encoder of anyxml.go (C5 / C9) -/

/-- anyxml.go `DefaultElementTag`. -/
def DefaultElementTag : String := "element"

/-- Modelled from the spec: the package-wide default root tag used when the
caller supplies no tags (its defining constant is not under src/); no claim
depends on its value. -/
def DefaultRootTag : String := "doc"

/-- Modelled from the spec: the display form of a scalar when it is emitted
as XML text (Go's `%v` float formatting is modelled only for integral
values; no claim depends on it). -/
def scalarText : Value → String
  | .str s => s
  | .bool b => if b then "true" else "false"
  | .num (.num q) => if q.den = 1 then toString q.num else toString q
  | .num (.inf neg) => if neg then "-Inf" else "+Inf"
  | .num .nan => "NaN"
  | _ => ""

def isHyphenKey (s : String) : Bool :=
  match s.data with
  | '-' :: _ => true
  | _ => false

/-- Modelled from the spec: the attribute text of a Mapping element —
hyphen-prefixed keys become ` name="value"` attributes of the parent. -/
def attrText : AList → String
  | [] => ""
  | (k, v) :: rest =>
    if isHyphenKey k then
      " " ++ String.mk (k.data.drop 1) ++ "=\"" ++ scalarText v ++ "\"" ++ attrText rest
    else attrText rest

mutual

/-- Modelled from the spec: `marshalMapToXmlIndent` (defined outside src/),
non-pretty form — the Mapping/Scalar-to-XML encoder the spec calls "the
same encoder used for genuine XML-derived trees": a Null is an empty
element, a scalar is `<tag>text</tag>`, a List-valued key emits one sibling
element per member, and a Mapping emits hyphen-prefixed keys as attributes,
the `"#text"` entry as its text, and every other entry as a child element;
an empty tag name is the structurally-invalid-output error. -/
def marshalToXml (tag : String) (v : Value) : Except String String :=
  if tag = "" then .error "invalid tag name"
  else
    match v with
    | .null => .ok ("<" ++ tag ++ "/>")
    | .str s => .ok ("<" ++ tag ++ ">" ++ s ++ "</" ++ tag ++ ">")
    | .num f => .ok ("<" ++ tag ++ ">" ++ scalarText (.num f) ++ "</" ++ tag ++ ">")
    | .bool b => .ok ("<" ++ tag ++ ">" ++ scalarText (.bool b) ++ "</" ++ tag ++ ">")
    | .list l => marshalSiblings tag l
    | .map m =>
      match marshalChildren m with
      | .error e => .error e
      | .ok body =>
        let text := match List.lookup "#text" m with
          | some tv => scalarText tv
          | none => ""
        if text = "" ∧ body = "" then .ok ("<" ++ tag ++ attrText m ++ "/>")
        else .ok ("<" ++ tag ++ attrText m ++ ">" ++ text ++ body ++ "</" ++ tag ++ ">")

/-- Modelled from the spec: one sibling element per member of a List-valued
key. -/
def marshalSiblings (tag : String) (l : List Value) : Except String String :=
  match l with
  | [] => .ok ""
  | v :: rest =>
    match marshalToXml tag v with
    | .error e => .error e
    | .ok s =>
      match marshalSiblings tag rest with
      | .error e => .error e
      | .ok srest => .ok (s ++ srest)

/-- Modelled from the spec: the child elements of a Mapping (attribute
entries and the `"#text"` entry are emitted elsewhere). -/
def marshalChildren (m : AList) : Except String String :=
  match m with
  | [] => .ok ""
  | (k, v) :: rest =>
    if isHyphenKey k ∨ k = "#text" then marshalChildren rest
    else
      match marshalToXml k v with
      | .error e => .error e
      | .ok s =>
        match marshalChildren rest with
        | .error e => .error e
        | .ok srest => .ok (s ++ srest)

end

/-- The member dispatch of the top-level List loop of anyxml.go `AnyXml`
(lines 92-108): a Mapping member with exactly one key is encoded under that
key, every other member under the caller-supplied element tag. -/
def memberEncode (et : String) (vv : Value) : Except String String :=
  match vv with
  | .map [(tag, val)] => marshalToXml tag val
  | .map m => marshalToXml et (.map m)
  | _ => marshalToXml et vv

/-- The top-level List loop of anyxml.go `AnyXml`: concatenate the member
encodings, stopping at the first error (Go breaks out of the loop and
returns the error). -/
def anyXmlListBody (et : String) : List Value → Except String String
  | [] => .ok ""
  | vv :: rest =>
    match memberEncode et vv with
    | .error e => .error e
    | .ok s =>
      match anyXmlListBody et rest with
      | .error e => .error e
      | .ok srest => .ok (s ++ srest)

/-- The root/element tag selection of anyxml.go `AnyXml`/`AnyXmlIndent`:
`tags[0]` is the root tag when one or two tags are given, `tags[1]` the
element tag when two are given, else the package defaults. -/
def pickTags (tags : List String) : String × String :=
  match tags with
  | [t1] => (t1, DefaultElementTag)
  | [t1, t2] => (t1, t2)
  | _ => (DefaultRootTag, DefaultElementTag)

/-- anyxml.go `AnyXml`: `v = .null` models the Go `nil` input and
`emptyElem` the process-wide `useGoXmlEmptyElemSyntax` option (a package
variable defined outside src/).  A Go struct input (handled via reflection)
is not representable as a `Value` and is not modelled; the Mapping case
delegates to the Modelled-from-the-spec encoder, as the source delegates to
`Map.Xml` (defined outside src/). -/
def AnyXml (v : Value) (tags : List String) (emptyElem : Bool) :
    Except String String :=
  let rt := (pickTags tags).1
  let et := (pickTags tags).2
  match v with
  | .null =>
    if emptyElem then .ok ("<" ++ rt ++ "></" ++ rt ++ ">")
    else .ok ("<" ++ rt ++ "/>")
  | .list l =>
    match anyXmlListBody et l with
    | .error e => .error e
    | .ok body => .ok ("<" ++ rt ++ ">" ++ body ++ "</" ++ rt ++ ">")
  | .map m => marshalToXml rt (.map m)
  | other => marshalToXml rt other

/-- anyxml.go `AnyXmlIndent`: the nil branch (the only one any claim pins
down) is translated from the source — the prefix is prepended to the same
empty-element forms; the remaining branches reuse the non-pretty encoder,
the pretty layout itself (line breaks and indent tracking) is not
modelled. -/
def AnyXmlIndent (v : Value) (pfx _indent : String) (tags : List String)
    (emptyElem : Bool) : Except String String :=
  let rt := (pickTags tags).1
  match v with
  | .null =>
    if emptyElem then .ok (pfx ++ "<" ++ rt ++ "></" ++ rt ++ ">")
    else .ok (pfx ++ "<" ++ rt ++ "/>")
  | other => AnyXml other tags emptyElem

end X2j

namespace X2j

/-- The top-level List loop concatenates the member encodings when every
member encodes successfully. -/
theorem anyXmlListBody_ok (et : String) (l : List Value) (ss : List String)
    (h : List.Forall₂ (fun vv s => memberEncode et vv = .ok s) l ss) :
    anyXmlListBody et l = .ok (ss.foldr (fun s acc => s ++ acc) "") := by
  induction h with
  | nil => rfl
  | cons hab htail ih => simp [anyXmlListBody, hab, ih]

/-- C5: a top-level List is wrapped whole in the root tag; each member that
is a Mapping with exactly one key is encoded under that key, every other
member under the caller-supplied element tag (which defaults to
`"element"`); in particular `["x", {"y": "z"}]` with root tag `"r"` and
element tag `"item"` encodes to `<r><item>x</item><y>z</y></r>`. -/
theorem anyXml_list_spec :
    (∀ rt et flag l ss,
      List.Forall₂ (fun vv s => memberEncode et vv = .ok s) l ss →
      AnyXml (.list l) [rt, et] flag =
        .ok ("<" ++ rt ++ ">" ++ ss.foldr (fun s acc => s ++ acc) "" ++ "</" ++ rt ++ ">")) ∧
    (∀ rt flag l, AnyXml (.list l) [rt] flag =
      AnyXml (.list l) [rt, DefaultElementTag] flag) ∧
    DefaultElementTag = "element" ∧
    AnyXml (.list [Value.str "x", Value.map [("y", Value.str "z")]]) ["r", "item"] false =
      .ok "<r><item>x</item><y>z</y></r>" := by
  refine ⟨?_, fun _ _ _ => rfl, rfl, rfl⟩
  intro rt et flag l ss h
  simp [AnyXml, pickTags, anyXmlListBody_ok et l ss h]

/-- Witness for C5: the general composition theorem applied at the spec's
end-to-end example. -/
theorem anyXml_list_spec_witness :
    AnyXml (.list [Value.str "x", Value.map [("y", Value.str "z")]]) ["r", "item"] false =
      .ok ("<" ++ "r" ++ ">" ++
        (["<item>x</item>", "<y>z</y>"].foldr (fun s acc => s ++ acc) "") ++
        "</" ++ "r" ++ ">") :=
  anyXml_list_spec.1 "r" "item" false _ ["<item>x</item>", "<y>z</y>"]
    (List.Forall₂.cons rfl (List.Forall₂.cons rfl List.Forall₂.nil))

/-- C9: encoding Null (the Go nil input) under root tag `rt` yields exactly
`<rt/>` when the process-wide empty-element-syntax option is unset and
`<rt></rt>` when it is set, never an error; AnyXmlIndent behaves the same
with the prefix prepended. -/
theorem anyXml_null_spec :
    ∀ (rt pfx ind : String),
      AnyXml .null [rt] false = .ok ("<" ++ rt ++ "/>") ∧
      AnyXml .null [rt] true = .ok ("<" ++ rt ++ "></" ++ rt ++ ">") ∧
      AnyXmlIndent .null pfx ind [rt] false = .ok (pfx ++ "<" ++ rt ++ "/>") ∧
      AnyXmlIndent .null pfx ind [rt] true =
        .ok (pfx ++ "<" ++ rt ++ "></" ++ rt ++ ">") := by
  intro rt pfx ind
  exact ⟨rfl, rfl, rfl, rfl⟩

end X2j
